import Mathlib

/-!
Verification of the chunked JSON aggregator of `arcraiders-data`
(`scripts/aggregate.mjs`, final byte-budget version).

The aggregator reads per-entity JSON files from up to three collection
directories (`items`, `quests`, `hideout`), partitions each record list into
chunks bounded by a byte budget (`MAX_CHUNK_BYTES`, default 1800000), writes
the chunks as `all_1.json`, `all_2.json`, … plus either the single chunk or a
manifest into the canonical `all.json` slot, and writes legacy root files.

This file shallowly embeds the pure logic of the script:
  * `JValue` models a JSON document (numbers restricted to integers, which is
    what the data of the repository uses; object fields keep insertion order, which
    matches `JSON.stringify` for the non-numeric keys occurring here);
  * `JValue.stringify` models `JSON.stringify(value, null, 2)`; `docBytes`
    models `Buffer.byteLength(JSON.stringify(value, null, 2) + "\n", "utf8")`,
    the canonical on-disk encoding used by `writeJson` and by the `fitsWith`
    size probe of the chunker;
  * `chunkLoop` / `chunkArrays` model the greedy byte-budget partition loop of
    `writeChunkedAll`;
  * `writeChunkedAll` models the sequence of file writes that function
    performs (the filesystem directory-existence probe is abstracted to a
    boolean `dirOk`, the value of `stat(dirPath).isDirectory()`);
  * `cleanAllFiles` models the best-effort stale-artifact removal, with the
    per-file `rm` call abstracted as an `Except`-returning function so that the
    `try {} catch {}` swallowing of failures is explicit;
  * `readJsonDir` models the directory reader, with the directory listing, the
    per-file parse outcome, and the `localeCompare("en")` collation passed in
    as parameters (they are environment inputs);
  * `aggregate` models the top-level per-collection driver as the ordered list
    of filesystem actions it performs.
-/

mutual

/-- A JSON value as handled by the aggregator.  Numbers are modelled as
integers (`Int`), matching the integer-valued game data the script processes;
object members are kept in insertion order. -/
inductive JValue where
  | jnull : JValue
  | jbool : Bool → JValue
  | jnum : Int → JValue
  | jstr : String → JValue
  | jarr : JArr → JValue
  | jobj : JObj → JValue
deriving DecidableEq, Repr

/-- The element list of a JSON array. -/
inductive JArr where
  | nil : JArr
  | cons : JValue → JArr → JArr
deriving DecidableEq, Repr

/-- The member list of a JSON object (key, value, rest), in insertion order. -/
inductive JObj where
  | nil : JObj
  | cons : String → JValue → JObj → JObj
deriving DecidableEq, Repr

end

/-- Build a JSON array element list from a Lean list of values. -/
def JArr.ofList : List JValue → JArr
  | [] => .nil
  | v :: vs => .cons v (JArr.ofList vs)

namespace JValue

/-- Escape one character the way `JSON.stringify` escapes string contents
(quote, backslash, and ASCII control characters; other characters are emitted
verbatim). -/
def escapeChar (c : Char) : String :=
  if c = '"' then "\\\""
  else if c = '\\' then "\\\\"
  else if c = '\n' then "\\n"
  else if c = '\t' then "\\t"
  else if c = '\r' then "\\r"
  else if c = '\x08' then "\\b"
  else if c = '\x0c' then "\\f"
  else if c.toNat < 0x20 then
    "\\u00" ++ (if c.toNat < 0x10 then "0" else "1") ++
      String.singleton (Nat.digitChar (c.toNat % 16))
  else String.singleton c

/-- Rendering of a string literal, as in `JSON.stringify`. -/
def quoteStr (s : String) : String :=
  "\"" ++ String.join (s.data.map escapeChar) ++ "\""

mutual

/-- Rendering of `JSON.stringify(v, null, 2)` at current indentation `ind` (the
indentation of the enclosing container; children indent by two further
spaces).  The top-level call uses `ind = ""`. -/
def stringify (ind : String) : JValue → String
  | jnull => "null"
  | jbool true => "true"
  | jbool false => "false"
  | jnum n => toString n
  | jstr s => quoteStr s
  | jarr .nil => "[]"
  | jarr (.cons x xs) =>
      "[\n" ++ stringifyItems (ind ++ "  ") (.cons x xs) ++ "\n" ++ ind ++ "]"
  | jobj .nil => "\x7b\x7d"
  | jobj (.cons k v ms) =>
      "\x7b\n" ++ stringifyFields (ind ++ "  ") (.cons k v ms) ++ "\n" ++ ind ++ "\x7d"

/-- Array items rendered one per line at indentation `ind` and joined with
`",\n"` (the `items.map(render).join(",\n")` part of `JSON.stringify`). -/
def stringifyItems (ind : String) : JArr → String
  | .nil => ""
  | .cons x .nil => ind ++ stringify ind x
  | .cons x (.cons y ys) =>
      ind ++ stringify ind x ++ ",\n" ++ stringifyItems ind (.cons y ys)

/-- Object members rendered as `"key": value`, one per line at indentation
`ind`, joined with `",\n"`. -/
def stringifyFields (ind : String) : JObj → String
  | .nil => ""
  | .cons k v .nil => ind ++ quoteStr k ++ ": " ++ stringify ind v
  | .cons k v (.cons k2 v2 ms) =>
      ind ++ quoteStr k ++ ": " ++ stringify ind v ++ ",\n" ++
        stringifyFields ind (.cons k2 v2 ms)

end

end JValue

/-- The canonical on-disk document encoding used by `writeJson`:
`JSON.stringify(value, null, 2) + "\n"`. -/
def serializeDoc (v : JValue) : String :=
  JValue.stringify "" v ++ "\n"

/-- The byte size of the canonical encoding of a document:
`Buffer.byteLength(serializeDoc v, "utf8")`. -/
def docBytes (v : JValue) : Nat :=
  (serializeDoc v).utf8ByteSize

/-- Byte size of the document that would be written for a chunk holding the
records `c` (a JSON array of the records). -/
def chunkBytes (c : List JValue) : Nat :=
  docBytes (.jarr (JArr.ofList c))

/-- The size probe of `writeChunkedAll`:
`Buffer.byteLength(JSON.stringify([...arr, item], null, 2) + "\n", "utf8")
<= MAX_CHUNK_BYTES`.  (The JS `try { … } catch { return false }` around the
probe can only fire on values outside JSON — BigInt or circular structures —
so it leaves no residue in this model.) -/
def fitsWith (B : Nat) (arr : List JValue) (item : JValue) : Bool :=
  chunkBytes (arr ++ [item]) ≤ B

/-- The greedy byte-budget partition loop of `writeChunkedAll`: `current` is
the chunk being built; an empty `current` accepts the next record
unconditionally; otherwise the record joins `current` only if the combined
chunk still fits the budget, and otherwise `current` is sealed and a fresh
chunk is started with the record.  The trailing non-empty `current` is sealed
at the end (`if (current.length) chunkArrays.push(current)`). -/
def chunkLoop (B : Nat) : List JValue → List JValue → List (List JValue)
  | current, [] => if current.isEmpty then [] else [current]
  | current, v :: vs =>
    if current.isEmpty then chunkLoop B [v] vs
    else if fitsWith B current v then chunkLoop B (current ++ [v]) vs
    else current :: chunkLoop B [v] vs

/-- The `chunkArrays` value computed by `writeChunkedAll` for input `values`
under byte budget `B` (`MAX_CHUNK_BYTES`). -/
def chunkArrays (B : Nat) (values : List JValue) : List (List JValue) :=
  chunkLoop B [] values

/-- Model of `const VERSION = process.env.GITHUB_SHA || null;` — the JS `||` turns an
absent or empty `GITHUB_SHA` into `null` (modelled as `none`). -/
def versionOf (githubSha : Option String) : Option String :=
  match githubSha with
  | some s => if s = "" then none else some s
  | none => none

/-- The manifest object written to `all.json` in multi-chunk mode:
`{ chunks, count, maxChunkBytes, ...(VERSION ? { version: VERSION } : {}) }`.
A `version := none` means the field is absent from the object (the JS spread
of `{}` adds nothing), never `null` or empty. -/
structure Manifest where
  chunks : List String
  count : Nat
  maxChunkBytes : Nat
  version : Option String
deriving DecidableEq, Repr

/-- The JSON document written by one `writeJson` call: the record array of
a chunk, the multi-chunk manifest, or the legacy root `items.json` object
`VERSION ? { version: VERSION, items } : { items }`. -/
inductive OutContent where
  | data : List JValue → OutContent
  | manifest : Manifest → OutContent
  | legacyItems : Option String → List JValue → OutContent
deriving DecidableEq, Repr

/-- One filesystem action of the aggregator, in program order:
`clean dir` is the `cleanAllFiles(dir)` call, `writeIn dir name v` is
`writeJson(path.join(dir, name), v)`, and `writeRoot name v` is
`writeJson(name, v)` for the legacy root files. -/
inductive FsAction where
  | clean : String → FsAction
  | writeIn : String → String → OutContent → FsAction
  | writeRoot : String → OutContent → FsAction
deriving DecidableEq, Repr

/-- The name of the `i`-th chunk file (0-based `i`): `all_${i + 1}.json`. -/
def chunkName (i : Nat) : String :=
  "all_" ++ toString (i + 1) ++ ".json"

/-- The ordered chunk file names `all_1.json`, …, `all_k.json` accumulated in
`chunkFiles` by `writeChunkedAll`. -/
def chunkFileNames (k : Nat) : List String :=
  (List.range k).map chunkName

/-- The ordered `writeJson` calls performed by `writeChunkedAll(dir, values)`
under budget `B` and version stamp `version`.  `dirOk` is the result of the
`stat(dirPath).isDirectory()` probe (the function bails out, writing nothing,
when the directory is missing); the early bail-out on an empty `values` comes
first, as in the source. -/
def writeChunkedAll (B : Nat) (version : Option String) (dirOk : Bool)
    (dir : String) (values : List JValue) : List FsAction :=
  if values.isEmpty then []
  else if !dirOk then []
  else
    let chunks := chunkArrays B values
    let chunkFiles := chunkFileNames chunks.length
    ((chunkFiles.zip chunks).map fun p => FsAction.writeIn dir p.1 (.data p.2)) ++
      (if chunks.length = 1 then
        [FsAction.writeIn dir "all.json" (.data (chunks.headD []))]
      else
        [FsAction.writeIn dir "all.json" (.manifest
          { chunks := chunkFiles
            count := values.length
            maxChunkBytes := B
            version := version })])

/-- Characterwise lowercasing, modelling `String.prototype.toLowerCase()` on
the ASCII file names the aggregator deals with. -/
def lowerStr (s : String) : String :=
  ⟨s.data.map Char.toLower⟩

/-- Whether `p` is a prefix of `s` (charwise). -/
def strStartsWith (s p : String) : Bool :=
  p.data.isPrefixOf s.data

/-- Whether `p` is a suffix of `s` (charwise). -/
def strEndsWith (s p : String) : Bool :=
  p.data.reverse.isPrefixOf s.data.reverse

/-- The stale-artifact name pattern `/^all(_\d+)?\.json$/i` used by
`cleanAllFiles`: the canonical aggregate name `all.json`, or a numbered chunk
name `all_<digits>.json`, case-insensitively. -/
def isAllFileName (f : String) : Bool :=
  let t := lowerStr f
  t = "all.json" ||
    (strStartsWith t "all_" && strEndsWith t ".json" &&
      (let mid := (t.data.drop 4).take (t.data.length - 9)
       !mid.isEmpty && mid.all Char.isDigit))

/-- The best-effort stale-artifact cleaner `cleanAllFiles`: `entries` is the
directory listing (`readdir`), `rm` the outcome of removing one file.  Every
listed name matching `isAllFileName` is targeted; each removal is wrapped in
the `try { await rm(…) } catch {}` of the source, so an `rm` failure is swallowed
and the next target is still processed.  Returns the names successfully
removed.  (The early return when the directory is missing is abstracted away:
`entries` is the listing of an existing directory.) -/
def cleanAllFiles (entries : List String) (rm : String → Except String Unit) :
    Except String (List String) :=
  (entries.filter isAllFileName).foldlM
    (fun removed f =>
      match rm f with
      | .ok _ => Except.ok (removed ++ [f])
      | .error _ => Except.ok removed)
    []

/-- The JS guard `json && typeof json === "object"` of `readJsonDir`:
`null` is falsy, and `typeof` yields `"object"` for arrays and (non-null)
objects but not for booleans, numbers or strings. -/
def isStructured : JValue → Bool
  | .jarr _ => true
  | .jobj _ => true
  | _ => false

/-- Stable insertion of `x` into `l` under the comparator `le`. -/
def insertLe (le : String → String → Bool) (x : String) :
    List String → List String
  | [] => [x]
  | y :: ys => if le x y then x :: y :: ys else y :: insertLe le x ys

/-- Stable insertion sort, modelling `Array.prototype.sort` with the
`(a, b) => a.localeCompare(b, "en")` comparator.  The collation itself is an
environment input, so it is passed in as the comparator `le`. -/
def sortByLe (le : String → String → Bool) : List String → List String
  | [] => []
  | x :: xs => insertLe le x (sortByLe le xs)

/-- The file-selection predicate of the byte-budget `readJsonDir`: keep names
ending in `.json` (case-insensitively) whose lowercased name is not exactly
`all.json`.  Note that numbered chunk names `all_<n>.json` are *not*
excluded. -/
def readJsonDirKeeps (f : String) : Bool :=
  strEndsWith (lowerStr f) ".json" && lowerStr f ≠ "all.json"

/-- The byte-budget `readJsonDir`: filter the directory listing `entries`
down to the selected `.json` files, sort them by the comparator `le`
(`localeCompare("en")`), and parse each file in turn.  `parse` gives the
outcome of `readFile` + `JSON.parse` per file; a failure is caught, logged as
a warning, and skipped, and a successfully parsed value is kept only when the
`json && typeof json === "object"` guard holds.  (The early return when the
directory is missing is abstracted away: `entries` is the listing of an
existing directory.) -/
def readJsonDir (le : String → String → Bool) (entries : List String)
    (parse : String → Except String JValue) : List JValue :=
  let files := sortByLe le (entries.filter readJsonDirKeeps)
  files.filterMap fun f =>
    match parse f with
    | .ok json => if isStructured json then some json else none
    | .error _ => none

/-- The top-level driver `aggregate()`, modelled as the ordered list of
filesystem actions it performs: for each non-empty collection, clean the
stale `all*.json` artifacts and write the new chunks; then write the legacy
root files.  `dirOkOf` gives the `isDirectory()` probe result per collection
directory, and `version` is the `VERSION` constant. -/
def aggregate (B : Nat) (version : Option String) (dirOkOf : String → Bool)
    (items quests hideout : List JValue) : List FsAction :=
  (if items.length > 0 then
      FsAction.clean "items" ::
        writeChunkedAll B version (dirOkOf "items") "items" items
   else []) ++
  (if quests.length > 0 then
      FsAction.clean "quests" ::
        writeChunkedAll B version (dirOkOf "quests") "quests" quests
   else []) ++
  (if hideout.length > 0 then
      FsAction.clean "hideout" ::
        writeChunkedAll B version (dirOkOf "hideout") "hideout" hideout
   else []) ++
  (if items.length > 0 then
      [FsAction.writeRoot "items.json" (.legacyItems version items)]
   else []) ++
  (if quests.length > 0 then [FsAction.writeRoot "quests.json" (.data quests)]
   else []) ++
  (if hideout.length > 0 then
      [FsAction.writeRoot "hideoutModules.json" (.data hideout)]
   else [])

/-- Does an action touch the collection with directory `dir` and legacy root
file `legacyName`: its stale-artifact cleanup, a write inside its directory
(chunk files and the `all.json` aggregate slot), or its legacy root file? -/
def touchesCollection (dir legacyName : String) : FsAction → Bool
  | .clean d => d = dir
  | .writeIn d _ _ => d = dir
  | .writeRoot n _ => n = legacyName

/-- The reader output described by the spec sentence behind C9 — "the
returned record sequence contains exactly the successfully parsed values in
filename order": the successful parse result of every selected file, in sorted
filename order, with no further guard. -/
def specParsedValues (le : String → String → Bool) (entries : List String)
    (parse : String → Except String JValue) : List JValue :=
  (sortByLe le (entries.filter readJsonDirKeeps)).filterMap
    (fun f => (parse f).toOption)

/-- Lexicographic order on code-point lists (used only to instantiate the
comparator parameter at concrete inputs). -/
def lexLe : List Nat → List Nat → Bool
  | [], _ => true
  | _ :: _, [] => false
  | x :: xs, y :: ys =>
    if x < y then true else if y < x then false else lexLe xs ys

/-- A concrete filename comparator (codepoint-wise lexicographic order),
standing in for `localeCompare("en")` at concrete inputs. -/
def fileLe (a b : String) : Bool :=
  lexLe (a.data.map Char.toNat) (b.data.map Char.toNat)

/-- Concrete per-file parse outcomes for the C9 scenario: `a.json` is
malformed, `b.json` parses to the number `42`. -/
def exParse9 : String → Except String JValue := fun f =>
  if f = "a.json" then .error "Unexpected token" else .ok (.jnum 42)

/-- Concrete per-file parse outcomes for the C10 scenario: a leftover chunk
file `all_1.json` parses to a record array, every other file to an empty
object. -/
def exParse10 : String → Except String JValue := fun f =>
  if f = "all_1.json" then .ok (.jarr (.cons (.jnum 7) .nil))
  else .ok (.jobj .nil)

/-- Flattening the partition produced by the greedy loop recovers the chunk
under construction followed by the unprocessed input. -/
theorem chunkLoop_flatten (B : Nat) :
    ∀ (vs cur : List JValue), (chunkLoop B cur vs).flatten = cur ++ vs := by
  intro vs
  induction vs with
  | nil => intro cur; cases cur <;> simp [chunkLoop]
  | cons v vs ih =>
    intro cur
    cases cur with
    | nil => simpa [chunkLoop] using ih [v]
    | cons a as =>
      by_cases hf : fitsWith B (a :: as) v
      · simpa [chunkLoop, hf, List.append_assoc] using ih ((a :: as) ++ [v])
      · simpa [chunkLoop, hf] using ih [v]

/-- The greedy loop never emits an empty chunk. -/
theorem chunkLoop_ne_nil (B : Nat) :
    ∀ (vs cur : List JValue), ∀ c ∈ chunkLoop B cur vs, c ≠ [] := by
  intro vs
  induction vs with
  | nil =>
    intro cur c hc
    cases cur with
    | nil => simp [chunkLoop] at hc
    | cons a as =>
      simp [chunkLoop] at hc
      simp [hc]
  | cons v vs ih =>
    intro cur c hc
    cases cur with
    | nil => exact ih [v] c (by simpa [chunkLoop] using hc)
    | cons a as =>
      by_cases hf : fitsWith B (a :: as) v
      · exact ih ((a :: as) ++ [v]) c (by simpa [chunkLoop, hf] using hc)
      · rcases (by simpa [chunkLoop, hf] using hc :
            c = a :: as ∨ c ∈ chunkLoop B [v] vs) with h | h
        · simp [h]
        · exact ih [v] c h

/-- Size invariant of the greedy loop: provided the chunk under construction
satisfies the budget whenever it holds at least two records, every emitted
chunk with at least two records fits the byte budget (the full contents of
each such chunk were checked by `fitsWith` when its last record was added). -/
theorem chunkLoop_bytes (B : Nat) :
    ∀ (vs cur : List JValue), (2 ≤ cur.length → chunkBytes cur ≤ B) →
      ∀ c ∈ chunkLoop B cur vs, 2 ≤ c.length → chunkBytes c ≤ B := by
  intro vs
  induction vs with
  | nil =>
    intro cur hcur c hc hlen
    cases cur with
    | nil => simp [chunkLoop] at hc
    | cons a as =>
      simp [chunkLoop] at hc
      rw [hc]
      exact hcur (hc ▸ hlen)
  | cons v vs ih =>
    intro cur hcur c hc hlen
    cases cur with
    | nil =>
      refine ih [v] ?_ c (by simpa [chunkLoop] using hc) hlen
      intro h
      simp at h
    | cons a as =>
      by_cases hf : fitsWith B (a :: as) v
      · refine ih ((a :: as) ++ [v]) ?_ c (by simpa [chunkLoop, hf] using hc) hlen
        intro _
        simpa [fitsWith] using hf
      · rcases (by simpa [chunkLoop, hf] using hc :
            c = a :: as ∨ c ∈ chunkLoop B [v] vs) with h | h
        · rw [h]
          exact hcur (h ▸ hlen)
        · refine ih [v] ?_ c h hlen
          intro h2
          simp at h2

/-- Any chunk of the final partition holding at least two records fits the
byte budget (instantiation of `chunkLoop_bytes` at the empty initial chunk). -/
theorem chunkArrays_bytes_of_two_le (B : Nat) (values : List JValue)
    (c : List JValue) (hc : c ∈ chunkArrays B values) (h2 : 2 ≤ c.length) :
    chunkBytes c ≤ B := by
  refine chunkLoop_bytes B values [] ?_ c hc h2
  intro h
  simp at h

/-- Claim C1: for every input record sequence and byte budget, concatenating
the record arrays of all chunks produced by the `chunkArrays` of
`writeChunkedAll`, in order, reproduces the input exactly — same records, same
order, no duplication, no drops. -/
theorem spec_C1_chunk_concat (B : Nat) (values : List JValue) :
    (chunkArrays B values).flatten = values := by
  simpa [chunkArrays] using chunkLoop_flatten B values []

/-- Claim C2 as stated is false: with budget `B = 10` and two records each
serializing standalone to exactly 10 bytes (`"1234567"` quoted plus the
trailing newline), the partition is two singleton chunks of 16 bytes each —
a singleton chunk exceeds the budget even though the own serialized size of
its record does not, because of the array-wrapping and indentation overhead of the
chunk encoding. -/
theorem spec_C2_counterexample :
    ¬ (∀ c ∈ chunkArrays 10 [JValue.jstr "1234567", JValue.jstr "1234567"],
        chunkBytes c ≤ 10 ∨ (c.length = 1 ∧ ∀ v ∈ c, 10 < docBytes v)) := by
  decide

/-- Claim C2 (amended): every chunk produced by the byte-budget partitioner
that contains two or more records has serialized byte length ≤ B; a chunk
containing exactly one record may exceed B — already when the array wrapping
and indentation overhead of the chunk encoding pushes it past B, even if the
own serialized size of the record is ≤ B. -/
theorem spec_C2_chunk_size (B : Nat) (values : List JValue) (c : List JValue)
    (hc : c ∈ chunkArrays B values) (h2 : 2 ≤ c.length) : chunkBytes c ≤ B :=
  chunkArrays_bytes_of_two_le B values c hc h2

/-- Witness for the amended C2 at a concrete input. -/
theorem spec_C2_chunk_size_witness :
    [JValue.jnum 1, JValue.jnum 2] ∈ chunkArrays 100 [JValue.jnum 1, JValue.jnum 2] ∧
      2 ≤ ([JValue.jnum 1, JValue.jnum 2] : List JValue).length ∧
      chunkBytes [JValue.jnum 1, JValue.jnum 2] ≤ 100 :=
  ⟨by decide, by decide,
    spec_C2_chunk_size 100 [JValue.jnum 1, JValue.jnum 2]
      [JValue.jnum 1, JValue.jnum 2] (by decide) (by decide)⟩

/-- Claim C3 as stated is false: with budget `B = 10` and two records whose
standalone serializations already exceed the budget, the partition consists
of two singleton chunks of 21 bytes each, so more than one chunk of the
partition exceeds the budget. -/
theorem spec_C3_counterexample :
    ¬ ((chunkArrays 10 [JValue.jstr "123456789012", JValue.jstr "123456789012"]).countP
          (fun c => decide (10 < chunkBytes c)) ≤ 1 ∧
        ∀ c ∈ chunkArrays 10 [JValue.jstr "123456789012", JValue.jstr "123456789012"],
          10 < chunkBytes c → c.length = 1) := by
  decide

/-- Claim C3 (amended): every chunk of the produced partition whose
serialized byte length exceeds B is a single-record chunk; there may be more
than one such chunk (one per oversized record). -/
theorem spec_C3_oversized_chunks (B : Nat) (values : List JValue)
    (c : List JValue) (hc : c ∈ chunkArrays B values) (hbig : B < chunkBytes c) :
    c.length = 1 := by
  have hne : c ≠ [] := chunkLoop_ne_nil B values [] c hc
  rcases c with _ | ⟨a, _ | ⟨b, cs⟩⟩
  · exact absurd rfl hne
  · rfl
  · exact absurd (chunkArrays_bytes_of_two_le B values _ hc (by simp)) (by omega)

/-- If a record does not occur in the concatenation of a list of chunks, no
chunk contains it. -/
theorem countP_contains_of_flatten_zero (v : JValue) :
    ∀ l : List (List JValue), l.flatten.count v = 0 →
      l.countP (fun c => decide (v ∈ c)) = 0 := by
  intro l
  induction l with
  | nil => simp
  | cons c l ih =>
    intro h
    rw [List.flatten_cons, List.count_append] at h
    have h1 : c.count v = 0 := by omega
    have h2 : l.flatten.count v = 0 := by omega
    have hvc : v ∉ c := List.count_eq_zero.mp h1
    rw [List.countP_cons]
    simp [hvc, ih h2]

/-- If a record occurs exactly once in the concatenation of a list of
chunks, exactly one chunk contains it. -/
theorem countP_contains_of_flatten_one (v : JValue) :
    ∀ l : List (List JValue), l.flatten.count v = 1 →
      l.countP (fun c => decide (v ∈ c)) = 1 := by
  intro l
  induction l with
  | nil => simp
  | cons c l ih =>
    intro h
    rw [List.flatten_cons, List.count_append] at h
    rw [List.countP_cons]
    rcases Nat.eq_zero_or_pos (c.count v) with h0 | hpos
    · have hvc : v ∉ c := List.count_eq_zero.mp h0
      simp [hvc, ih (by omega)]
    · have hvc : v ∈ c := List.count_pos_iff.mp hpos
      have hrest : l.flatten.count v = 0 := by omega
      simp [hvc, countP_contains_of_flatten_zero v l hrest]

/-- Claim C4: a record occurring once in the input — in particular one whose
standalone serialized size exceeds the budget, which an empty current chunk
accepts unconditionally — appears in exactly one chunk of the output, exactly
once there: never split across chunks, never duplicated, never dropped. -/
theorem spec_C4_oversized_accepted (B : Nat) (values : List JValue) (v : JValue)
    (hbig : B < docBytes v) (honce : values.count v = 1) :
    (chunkArrays B values).countP (fun c => decide (v ∈ c)) = 1 ∧
      ∀ c ∈ chunkArrays B values, v ∈ c → c.count v = 1 := by
  have hflat : (chunkArrays B values).flatten = values := by
    simpa [chunkArrays] using chunkLoop_flatten B values []
  have hfc : (chunkArrays B values).flatten.count v = 1 := by rw [hflat, honce]
  refine ⟨countP_contains_of_flatten_one v _ hfc, ?_⟩
  intro c hc hvc
  have hle : c.count v ≤ (chunkArrays B values).flatten.count v := by
    rw [List.count_flatten]
    exact List.single_le_sum (fun x _ => Nat.zero_le x) _
      (List.mem_map_of_mem (List.count v) hc)
  have hpos : 0 < c.count v := List.count_pos_iff.mpr hvc
  omega

/-- Witness for C4 at a concrete input: a single record of standalone
serialized size 15 under budget 12. -/
theorem spec_C4_oversized_accepted_witness :
    12 < docBytes (JValue.jstr "123456789012") ∧
      ([JValue.jstr "123456789012"] : List JValue).count
          (JValue.jstr "123456789012") = 1 ∧
      ((chunkArrays 12 [JValue.jstr "123456789012"]).countP
          (fun c => decide (JValue.jstr "123456789012" ∈ c)) = 1 ∧
        ∀ c ∈ chunkArrays 12 [JValue.jstr "123456789012"],
          JValue.jstr "123456789012" ∈ c →
            c.count (JValue.jstr "123456789012") = 1) :=
  ⟨by decide, by decide,
    spec_C4_oversized_accepted 12 [JValue.jstr "123456789012"]
      (JValue.jstr "123456789012") (by decide) (by decide)⟩

/-- Witness for the amended C3 at a concrete input. -/
theorem spec_C3_oversized_chunks_witness :
    [JValue.jstr "123456789012"] ∈
        chunkArrays 10 [JValue.jstr "123456789012", JValue.jstr "123456789012"] ∧
      10 < chunkBytes [JValue.jstr "123456789012"] ∧
      ([JValue.jstr "123456789012"] : List JValue).length = 1 :=
  ⟨by decide, by decide,
    spec_C3_oversized_chunks 10
      [JValue.jstr "123456789012", JValue.jstr "123456789012"]
      [JValue.jstr "123456789012"] (by decide) (by decide)⟩

/-- A partition with at least one chunk can only come from a non-empty
input. -/
theorem values_not_isEmpty_of_chunks (B : Nat) (values : List JValue)
    (h : 0 < (chunkArrays B values).length) : values.isEmpty = false := by
  cases values with
  | nil => simp [chunkArrays, chunkLoop] at h
  | cons a as => rfl

/-- Claim C6: whenever the partition yields exactly one chunk, no manifest is
produced — the chunk file `all_1.json` and the canonical aggregate slot
`all.json` are both written with the record array of the sole chunk, which is the
whole input, directly. -/
theorem spec_C6_single_chunk (B : Nat) (ver : Option String) (dir : String)
    (values : List JValue) (h1 : (chunkArrays B values).length = 1) :
    writeChunkedAll B ver true dir values =
      [FsAction.writeIn dir "all_1.json" (.data values),
       FsAction.writeIn dir "all.json" (.data values)] := by
  obtain ⟨c, hc⟩ := List.length_eq_one.mp h1
  have hcv : c = values := by
    have hflat : (chunkArrays B values).flatten = values := by
      simpa [chunkArrays] using chunkLoop_flatten B values []
    rw [hc] at hflat
    simpa using hflat
  have hne : values.isEmpty = false :=
    values_not_isEmpty_of_chunks B values (by omega)
  have hnames : chunkFileNames 1 = ["all_1.json"] := by decide
  simp [writeChunkedAll, hne, hc, hcv, hnames]

/-- Witness for C6 at a concrete input that fits in a single chunk. -/
theorem spec_C6_single_chunk_witness :
    (chunkArrays 100 [JValue.jnum 7, JValue.jnum 8]).length = 1 ∧
      writeChunkedAll 100 none true "items" [JValue.jnum 7, JValue.jnum 8] =
        [FsAction.writeIn "items" "all_1.json"
            (.data [JValue.jnum 7, JValue.jnum 8]),
         FsAction.writeIn "items" "all.json"
            (.data [JValue.jnum 7, JValue.jnum 8])] :=
  ⟨by decide,
    spec_C6_single_chunk 100 none "items" [JValue.jnum 7, JValue.jnum 8]
      (by decide)⟩

/-- Claim C5: whenever the partition yields `N ≥ 2` chunks, the last write of
`writeChunkedAll` puts a manifest into the aggregate slot `all.json`, whose
`chunks` list is the `N` chunk file names in partition order, whose `count`
equals the input length, whose `maxChunkBytes` equals the configured budget,
and whose `version` field is present exactly when a (non-empty) `GITHUB_SHA`
version stamp is available — never `null` or empty when absent. -/
theorem spec_C5_manifest (B : Nat) (env : Option String) (dir : String)
    (values : List JValue) (h2 : 2 ≤ (chunkArrays B values).length) :
    (writeChunkedAll B (versionOf env) true dir values).getLast? =
      some (FsAction.writeIn dir "all.json" (.manifest
        { chunks := chunkFileNames (chunkArrays B values).length
          count := values.length
          maxChunkBytes := B
          version := versionOf env })) ∧
      (chunkFileNames (chunkArrays B values).length).length =
        (chunkArrays B values).length ∧
      ((versionOf env).isSome ↔ ∃ s, env = some s ∧ s ≠ "") ∧
      (∀ s, versionOf env = some s → s ≠ "") := by
  refine ⟨?_, ?_, ?_, ?_⟩
  · have hne : values.isEmpty = false :=
      values_not_isEmpty_of_chunks B values (by omega)
    have hlen1 : ¬ ((chunkArrays B values).length = 1) := by omega
    simp only [writeChunkedAll, hne, Bool.false_eq_true, if_false,
      Bool.not_true, if_neg hlen1]
    exact List.getLast?_concat _
  · simp [chunkFileNames]
  · cases env with
    | none => simp [versionOf]
    | some s =>
      by_cases hs : s = "" <;> simp [versionOf, hs]
  · intro s hs
    cases env with
    | none => simp [versionOf] at hs
    | some t =>
      by_cases ht : t = ""
      · simp [versionOf, ht] at hs
      · simp [versionOf, ht] at hs
        exact hs ▸ ht

/-- Witness for C5 at a concrete input that splits into two chunks, with a
version stamp available. -/
theorem spec_C5_manifest_witness :
    2 ≤ (chunkArrays 12 [JValue.jstr "aaaa", JValue.jstr "bbbb"]).length ∧
      ((writeChunkedAll 12 (versionOf (some "abc")) true "items"
          [JValue.jstr "aaaa", JValue.jstr "bbbb"]).getLast? =
        some (FsAction.writeIn "items" "all.json" (.manifest
          { chunks := chunkFileNames
              (chunkArrays 12 [JValue.jstr "aaaa", JValue.jstr "bbbb"]).length
            count := [JValue.jstr "aaaa", JValue.jstr "bbbb"].length
            maxChunkBytes := 12
            version := versionOf (some "abc") })) ∧
        (chunkFileNames
            (chunkArrays 12 [JValue.jstr "aaaa", JValue.jstr "bbbb"]).length).length =
          (chunkArrays 12 [JValue.jstr "aaaa", JValue.jstr "bbbb"]).length ∧
        ((versionOf (some "abc")).isSome ↔
          ∃ s, (some "abc" : Option String) = some s ∧ s ≠ "") ∧
        (∀ s, versionOf (some "abc") = some s → s ≠ "")) :=
  ⟨by decide,
    spec_C5_manifest 12 (some "abc") "items"
      [JValue.jstr "aaaa", JValue.jstr "bbbb"] (by decide)⟩


/-- Every action performed by `writeChunkedAll` is a `writeJson` into the
collection directory it was called on. -/
theorem writeChunkedAll_mem_writeIn (B : Nat) (ver : Option String)
    (ok : Bool) (dir : String) (values : List JValue) :
    ∀ a ∈ writeChunkedAll B ver ok dir values,
      ∃ n c, a = FsAction.writeIn dir n c := by
  intro a ha
  simp only [writeChunkedAll] at ha
  split at ha
  · simp at ha
  · split at ha
    · simp at ha
    · rcases List.mem_append.mp ha with h | h
      · rcases List.mem_map.mp h with ⟨p, _, rfl⟩
        exact ⟨p.1, .data p.2, rfl⟩
      · split at h
        · rw [List.mem_singleton.mp h]
          exact ⟨"all.json", _, rfl⟩
        · rw [List.mem_singleton.mp h]
          exact ⟨"all.json", _, rfl⟩

/-- No action performed by `writeChunkedAll` on directory `dir` touches a
collection with a different directory. -/
theorem writeChunkedAll_not_touches (B : Nat) (ver : Option String)
    (ok : Bool) (dir dx lx : String) (values : List JValue)
    (hne : ¬ dir = dx) :
    ∀ b ∈ writeChunkedAll B ver ok dir values,
      (!(touchesCollection dx lx b)) = true := by
  intro b hb
  obtain ⟨n, c, rfl⟩ := writeChunkedAll_mem_writeIn B ver ok dir values b hb
  simp [touchesCollection, hne]

/-- Claim C7: for an empty input record sequence, the aggregator produces
zero chunks and performs no filesystem action for that collection — no
stale-artifact cleanup, no numbered chunk file, no aggregate-slot file, and
no legacy root file — shown for each of the three collections. -/
theorem spec_C7_empty_input (B : Nat) (ver : Option String)
    (dirOkOf : String → Bool) (xs ys : List JValue) :
    chunkArrays B [] = [] ∧
      (aggregate B ver dirOkOf [] xs ys).all
        (fun a => !(touchesCollection "items" "items.json" a)) = true ∧
      (aggregate B ver dirOkOf xs [] ys).all
        (fun a => !(touchesCollection "quests" "quests.json" a)) = true ∧
      (aggregate B ver dirOkOf xs ys []).all
        (fun a => !(touchesCollection "hideout" "hideoutModules.json" a)) = true := by
  refine ⟨rfl, ?_, ?_, ?_⟩
  · rw [List.all_eq_true]
    intro a ha
    simp only [aggregate, List.length_nil, gt_iff_lt, Nat.lt_irrefl, if_false,
      List.nil_append, List.append_nil] at ha
    rcases List.mem_append.mp ha with h | h
    · rcases List.mem_append.mp h with h | h
      · rcases List.mem_append.mp h with h | h
        · split at h
          · rcases List.mem_cons.mp h with rfl | h
            · decide
            · exact writeChunkedAll_not_touches B ver (dirOkOf "quests")
                "quests" "items" "items.json" xs (by decide) a h
          · simp at h
        · split at h
          · rcases List.mem_cons.mp h with rfl | h
            · decide
            · exact writeChunkedAll_not_touches B ver (dirOkOf "hideout")
                "hideout" "items" "items.json" ys (by decide) a h
          · simp at h
      · split at h
        · rw [List.mem_singleton.mp h]
          simp [touchesCollection]
        · simp at h
    · split at h
      · rw [List.mem_singleton.mp h]
        simp [touchesCollection]
      · simp at h
  · rw [List.all_eq_true]
    intro a ha
    simp only [aggregate, List.length_nil, gt_iff_lt, Nat.lt_irrefl, if_false,
      List.nil_append, List.append_nil] at ha
    rcases List.mem_append.mp ha with h | h
    · rcases List.mem_append.mp h with h | h
      · rcases List.mem_append.mp h with h | h
        · split at h
          · rcases List.mem_cons.mp h with rfl | h
            · decide
            · exact writeChunkedAll_not_touches B ver (dirOkOf "items")
                "items" "quests" "quests.json" xs (by decide) a h
          · simp at h
        · split at h
          · rcases List.mem_cons.mp h with rfl | h
            · decide
            · exact writeChunkedAll_not_touches B ver (dirOkOf "hideout")
                "hideout" "quests" "quests.json" ys (by decide) a h
          · simp at h
      · split at h
        · rw [List.mem_singleton.mp h]
          simp [touchesCollection]
        · simp at h
    · split at h
      · rw [List.mem_singleton.mp h]
        simp [touchesCollection]
      · simp at h
  · rw [List.all_eq_true]
    intro a ha
    simp only [aggregate, List.length_nil, gt_iff_lt, Nat.lt_irrefl, if_false,
      List.nil_append, List.append_nil] at ha
    rcases List.mem_append.mp ha with h | h
    · rcases List.mem_append.mp h with h | h
      · rcases List.mem_append.mp h with h | h
        · split at h
          · rcases List.mem_cons.mp h with rfl | h
            · decide
            · exact writeChunkedAll_not_touches B ver (dirOkOf "items")
                "items" "hideout" "hideoutModules.json" xs (by decide) a h
          · simp at h
        · split at h
          · rcases List.mem_cons.mp h with rfl | h
            · decide
            · exact writeChunkedAll_not_touches B ver (dirOkOf "quests")
                "quests" "hideout" "hideoutModules.json" ys (by decide) a h
          · simp at h
      · split at h
        · rw [List.mem_singleton.mp h]
          simp [touchesCollection]
        · simp at h
    · split at h
      · rw [List.mem_singleton.mp h]
        simp [touchesCollection]
      · simp at h

/-- The per-target `try { await rm(…) } catch {}` fold of `cleanAllFiles`
never propagates an error and accumulates exactly the targets whose removal
succeeded. -/
theorem cleanAllFiles_fold (rm : String → Except String Unit) :
    ∀ (l acc : List String),
      (List.foldlM (fun removed f =>
          match rm f with
          | .ok _ => Except.ok (removed ++ [f])
          | .error _ => Except.ok removed) acc l :
            Except String (List String)) =
        .ok (acc ++ l.filter (fun f => (rm f).isOk)) := by
  intro l
  induction l with
  | nil => intro acc; simp [List.foldlM_nil, pure, Except.pure]
  | cons f l ih =>
    intro acc
    rw [List.foldlM_cons]
    cases hrm : rm f with
    | ok u =>
      simp [hrm, ih, List.filter_cons, Except.isOk, Except.toBool,
        Bind.bind, Except.bind]
    | error e =>
      simp [hrm, ih, List.filter_cons, Except.isOk, Except.toBool,
        Bind.bind, Except.bind]

/-- Claim C8: the stale-artifact cleaner targets exactly the files whose
names match the `all.json` / `all_<digits>.json` pattern (case-insensitive),
removes each such file whose removal succeeds, swallows every individual
removal failure, and always completes without propagating an error. -/
theorem spec_C8_clean_best_effort (entries : List String)
    (rm : String → Except String Unit) :
    cleanAllFiles entries rm =
        .ok ((entries.filter isAllFileName).filter (fun f => (rm f).isOk)) ∧
      isAllFileName "all.json" = true ∧
      isAllFileName "ALL_12.JSON" = true ∧
      isAllFileName "all_7.json" = true ∧
      isAllFileName "items.json" = false ∧
      isAllFileName "all_.json" = false ∧
      isAllFileName "all_1.txt" = false := by
  refine ⟨?_, by decide, by decide, by decide, by decide, by decide, by decide⟩
  unfold cleanAllFiles
  simpa using cleanAllFiles_fold rm (entries.filter isAllFileName) []

/-- Claim C9 as stated is false: with `a.json` malformed and `b.json`
parsing successfully to the number `42`, the reader returns `[]`, not the
list of successfully parsed values `[42]` — the `json && typeof json ===
"object"` guard silently drops successfully parsed non-object values. -/
theorem spec_C9_counterexample :
    readJsonDir fileLe ["a.json", "b.json"] exParse9 = [] ∧
      specParsedValues fileLe ["a.json", "b.json"] exParse9 = [JValue.jnum 42] ∧
      readJsonDir fileLe ["a.json", "b.json"] exParse9 ≠
        specParsedValues fileLe ["a.json", "b.json"] exParse9 := by
  decide

/-- Claim C9 (amended): a file that fails to parse is skipped with a warning
and is not fatal — the remaining files are still read, and the returned
record sequence contains exactly the successfully parsed values that are
non-null objects or arrays, in filename order (successfully parsed `null`s
and primitive values are silently dropped by the `json && typeof json ===
"object"` guard). -/
theorem spec_C9_skip_invalid (le : String → String → Bool)
    (entries : List String) (parse : String → Except String JValue) :
    readJsonDir le entries parse =
      (specParsedValues le entries parse).filter isStructured := by
  unfold readJsonDir specParsedValues
  generalize sortByLe le (entries.filter readJsonDirKeeps) = files
  induction files with
  | nil => rfl
  | cons f l ih =>
    cases hp : parse f with
    | ok j =>
      by_cases hs : isStructured j <;>
        simp [List.filterMap_cons, hp, Except.toOption, hs, List.filter_cons, ih]
    | error e =>
      simp [List.filterMap_cons, hp, Except.toOption, ih]

/-- Claim C10: the byte-budget reader excludes only the file whose lowercased
name is exactly `all.json`; numbered chunk files `all_1.json`, `all_2.json`,
… left by a previous run are kept, parsed, and included as input records —
even though the pattern of `cleanAllFiles` matches (and later deletes) exactly
those names. -/
theorem spec_C10_chunks_reingested :
    readJsonDirKeeps "all_1.json" = true ∧
      readJsonDirKeeps "all_2.json" = true ∧
      readJsonDirKeeps "all.json" = false ∧
      readJsonDirKeeps "ALL.JSON" = false ∧
      isAllFileName "all_1.json" = true ∧
      isAllFileName "all_2.json" = true ∧
      readJsonDir fileLe ["b.json", "all_1.json", "all.json"] exParse10 =
        [JValue.jarr (.cons (.jnum 7) .nil), JValue.jobj .nil] := by
  decide
